import Mathlib

/-!
Verification of the ikarus label-propagation core (`src/utils.py`).

The development shallowly embeds the functions `label_propagation` and
`cell_annotator` of `utils.py` over exact rational arithmetic:

* a run's data (`LPInput`) carries the signature-score columns
  `results['Normal']` / `results['Tumor']`, the classifier probability columns
  `results['LR_proba_Normal']` / `results['LR_proba_Tumor']`, and the dense
  connectivity matrix;
* `quantile` embeds the pandas `Series.quantile` call with its default linear
  interpolation on the ascending sort of the data;
* `np_linspace` embeds `np.linspace(start, stop, num)[i]`;
* `lpStep` embeds one iteration body of the propagation loop
  (mask, `np.dot`, row-wise `np.divide` by the row sums — `connectivities` is a
  dense `np.matrix`, so `.sum(axis=1)` is an `(n, 1)` column and the division is
  row-wise); rational division by a zero row sum yields `0`, standing in for
  the IEEE `nan` the Python code produces there;
* `lpLoop` embeds the `for i in range(n_iter)` loop with its early-stop check
  (`if not i < 5`), its non-convergence warning (recorded in `warned` as the
  printed drift value), and the unbound-variable read of `pre` (a `NameError`,
  modelled as `Except.error`).
-/

namespace Ikarus

/-- `np.linspace(start, stop, num)[i]`: `start + i * (stop - start) / (num - 1)`.
For `num = 1` numpy returns `[start]`; the rational convention `x / 0 = 0`
reproduces that value at `i = 0`. -/
def np_linspace (start stop : ℚ) (num i : ℕ) : ℚ :=
  start + (i : ℚ) * (stop - start) / ((num : ℚ) - 1)

/-- Linear interpolation at (possibly fractional) position `h` into a list,
the interpolation scheme used by `pandas.Series.quantile(interpolation='linear')`:
`s[⌊h⌋] + (h - ⌊h⌋) * (s[⌈h⌉] - s[⌊h⌋])` on the ascending sort. -/
def qinterp (s : List ℚ) (h : ℚ) : ℚ :=
  s.getD (⌊h⌋).toNat 0 + (h - ((⌊h⌋).toNat : ℚ)) * (s.getD (⌈h⌉).toNat 0 - s.getD (⌊h⌋).toNat 0)

/-- `pandas.Series.quantile(q)` (default linear interpolation): interpolate at
position `q * (n - 1)` into the ascending sort of the values. -/
def quantile (xs : List ℚ) (q : ℚ) : ℚ :=
  qinterp (xs.insertionSort (· ≤ ·)) (q * ((xs.length : ℚ) - 1))

/-- The columns of the per-cell result table `results` that
`label_propagation` reads, together with the dense connectivity matrix.
`normal`/`tumor` are the signature-score columns `results['Normal']` and
`results['Tumor']`; `lrProbaNormal`/`lrProbaTumor` are the classifier output
columns `results['LR_proba_Normal']` and `results['LR_proba_Tumor']` written by
`cell_annotator`. -/
structure LPInput (n : ℕ) where
  normal : Fin n → ℚ
  tumor : Fin n → ℚ
  lrProbaNormal : Fin n → ℚ
  lrProbaTumor : Fin n → ℚ
  connectivities : Fin n → Fin n → ℚ

/-- `absdif = abs(results['Normal'] - results['Tumor'])` (utils.py line 202):
the per-cell confidence score, computed from the signature-score columns. -/
def absdif (inp : LPInput n) (c : Fin n) : ℚ :=
  |inp.normal c - inp.tumor c|

/-- The confidence scores as the pandas Series that `absdif.quantile` sorts. -/
def absdifList (inp : LPInput n) : List ℚ :=
  (List.finRange n).map (absdif inp)

/-- `certainty_threshold * np.linspace(1, 0, n_iter)[i]` (utils.py line 210). -/
def thresholdAt (certainty_threshold : ℚ) (n_iter i : ℕ) : ℚ :=
  certainty_threshold * np_linspace 1 0 n_iter i

/-- The pre-loop `results['certain']` flag (utils.py lines 203-207):
`absdif > absdif.quantile(q=certainty_threshold)`. -/
def certainGlobal (inp : LPInput n) (certainty_threshold : ℚ) (c : Fin n) : Prop :=
  absdif inp c > quantile (absdifList inp) certainty_threshold

/-- The per-iteration `results[f'certain{i}']` flag (utils.py lines 211-215):
`absdif > absdif.quantile(q=certainty_threshold_pct)`. -/
def certainAt (inp : LPInput n) (certainty_threshold : ℚ) (n_iter i : ℕ) (c : Fin n) : Prop :=
  absdif inp c > quantile (absdifList inp) (thresholdAt certainty_threshold n_iter i)

instance (inp : LPInput n) (t : ℚ) (n_iter i : ℕ) (c : Fin n) :
    Decidable (certainAt inp t n_iter i c) :=
  inferInstanceAs (Decidable (_ > _))

instance (inp : LPInput n) (t : ℚ) (c : Fin n) : Decidable (certainGlobal inp t c) :=
  inferInstanceAs (Decidable (_ > _))

/-- The initial working matrix `proba_tier_0` (utils.py lines 196-199): a copy
of the classifier probability columns, renamed to `['Normal', 'Tumor']`. -/
def initProba (inp : LPInput n) (c : Fin n) : ℚ × ℚ :=
  (inp.lrProbaNormal c, inp.lrProbaTumor c)

/-- The mask assignment `proba_tier_0.loc[results[f'certain{i}'] == False] = 0.000001`
(utils.py line 216), applied to a working matrix `proba`. -/
def maskRow (inp : LPInput n) (certainty_threshold : ℚ) (n_iter i : ℕ)
    (proba : Fin n → ℚ × ℚ) (c : Fin n) : ℚ × ℚ :=
  if certainAt inp certainty_threshold n_iter i c then proba c else (1/1000000, 1/1000000)

/-- Row `c` of `np.dot(connectivities, proba_tier_0.values)` (utils.py line 218). -/
def propagateRow (inp : LPInput n) (M : Fin n → ℚ × ℚ) (c : Fin n) : ℚ × ℚ :=
  (((List.finRange n).map (fun j => inp.connectivities c j * (M j).1)).sum,
   ((List.finRange n).map (fun j => inp.connectivities c j * (M j).2)).sum)

/-- One body of the propagation loop acting on the working matrix
(utils.py lines 210-220): mask on this iteration's certainty flag, multiply by
the connectivity matrix, divide each row by its row sum. -/
def lpStep (inp : LPInput n) (certainty_threshold : ℚ) (n_iter i : ℕ)
    (proba : Fin n → ℚ × ℚ) (c : Fin n) : ℚ × ℚ :=
  let m := propagateRow inp (maskRow inp certainty_threshold n_iter i proba) c
  (m.1 / (m.1 + m.2), m.2 / (m.1 + m.2))

/-- `proba_tier_0.idxmax(axis=1)` per cell, encoded as `true` for `'Tumor'`:
pandas `idxmax` returns the first maximal column, so ties give `'Normal'`. -/
def assignment (proba : Fin n → ℚ × ℚ) (c : Fin n) : Bool :=
  (proba c).1 < (proba c).2

/-- `(current != pre).sum() / current.size` (utils.py line 224). -/
def drift (current pre : Fin n → Bool) : ℚ :=
  (((List.finRange n).filter (fun c => current c != pre c)).length : ℚ) / (n : ℚ)

/-- The working matrix `proba_tier_0` at entry of iteration `i` of the loop
(`i = 0`: the initial classifier probabilities; afterwards the renormalized
matrix written back by `proba_tier_0.loc[:, :] = lp_step_mtx`). -/
def probaSeq (inp : LPInput n) (certainty_threshold : ℚ) (n_iter : ℕ) : ℕ → Fin n → ℚ × ℚ
  | 0 => initProba inp
  | i + 1 => lpStep inp certainty_threshold n_iter i (probaSeq inp certainty_threshold n_iter i)

/-- The masked matrix actually fed to `np.dot` at iteration `i`: the mask of
this iteration applied to the working matrix entering iteration `i`. -/
def maskedAt (inp : LPInput n) (certainty_threshold : ℚ) (n_iter i : ℕ) : Fin n → ℚ × ℚ :=
  maskRow inp certainty_threshold n_iter i (probaSeq inp certainty_threshold n_iter i)

/-- Modelled from the spec: the mask step the specification describes, "applied
freshly from the immutable initial classifier probabilities" with the current
iteration's threshold.  Stated only to be compared against `maskedAt`. -/
def maskedFromInitial (inp : LPInput n) (certainty_threshold : ℚ) (n_iter i : ℕ) :
    Fin n → ℚ × ℚ :=
  maskRow inp certainty_threshold n_iter i (initProba inp)

/-- Modelled from the spec: the confidence score the specification describes,
`|P[cell, ClassA] - P[cell, ClassB]|` over the classifier's class
probabilities.  Stated only to be compared against `absdif`. -/
def confidenceSpec (inp : LPInput n) (c : Fin n) : ℚ :=
  |inp.lrProbaNormal c - inp.lrProbaTumor c|

/-- Modelled from the spec: the global certainty flag induced by
`confidenceSpec`.  Stated only to be compared against `certainGlobal`. -/
def certainGlobalSpec (inp : LPInput n) (certainty_threshold : ℚ) (c : Fin n) : Prop :=
  confidenceSpec inp c >
    quantile ((List.finRange n).map (confidenceSpec inp)) certainty_threshold

instance (inp : LPInput n) (t : ℚ) (c : Fin n) : Decidable (certainGlobalSpec inp t c) :=
  inferInstanceAs (Decidable (_ > _))

/-- The pre-division row sum `lp_step_mtx.sum(axis=1)` of row `c` at iteration `i`. -/
def propRowSum (inp : LPInput n) (certainty_threshold : ℚ) (n_iter i : ℕ) (c : Fin n) : ℚ :=
  (propagateRow inp (maskedAt inp certainty_threshold n_iter i) c).1 +
    (propagateRow inp (maskedAt inp certainty_threshold n_iter i) c).2

/-- The hard assignment computed at the end of iteration `i`
(`current = proba_tier_0.idxmax(axis=1)` after the write-back). -/
def assignAt (inp : LPInput n) (certainty_threshold : ℚ) (n_iter i : ℕ) : Fin n → Bool :=
  assignment (probaSeq inp certainty_threshold n_iter (i + 1))

/-- The drift computed at iteration `i ≥ 1`: fraction of cells whose assignment
at iteration `i` differs from the assignment at iteration `i - 1`. -/
def driftAt (inp : LPInput n) (certainty_threshold : ℚ) (n_iter i : ℕ) : ℚ :=
  drift (assignAt inp certainty_threshold n_iter i) (assignAt inp certainty_threshold n_iter (i - 1))

/-- The only uncaught exception the loop itself can raise: the f-string of the
non-convergence warning reads the loop variable `pre` before any assignment
(`NameError`) when the warning branch runs in iteration 0. -/
inductive LPError where
  | nameError
deriving DecidableEq

/-- The mutable loop state: the working matrix `proba_tier_0`, the optional
previous assignment `pre` (`none` while the Python variable is still unbound),
and the drift values printed by non-convergence warnings so far. -/
structure LPState (n : ℕ) where
  proba : Fin n → ℚ × ℚ
  pre : Option (Fin n → Bool)
  warned : List ℚ

/-- The observable outcome of the loop: the final working matrix, the printed
warning drifts, the number of executed iterations, and whether the loop ended
through the early-stop `break`. -/
structure LPOut (n : ℕ) where
  proba : Fin n → ℚ × ℚ
  warned : List ℚ
  iters : ℕ
  earlyStopped : Bool

/-- The loop `for i in range(n_iter)` of `label_propagation`
(utils.py lines 209-228), with `fuel` = remaining iterations and `i` the
current index.  Inside an iteration: run the step, compute `current`; if
`not i < 5`, read `pre` (`NameError` if unbound) and `break` when the drift is
below `0.001`; if `i == n_iter - 1`, print the warning (reading `pre`); finally
`pre = current`. -/
def lpLoop (inp : LPInput n) (certainty_threshold : ℚ) (n_iter : ℕ) :
    ℕ → ℕ → LPState n → Except LPError (LPOut n)
  | 0, i, st => .ok ⟨st.proba, st.warned, i, false⟩
  | fuel + 1, i, ⟨P, none, w⟩ =>
    if 5 ≤ i then .error .nameError
    else if i = n_iter - 1 then .error .nameError
    else
      lpLoop inp certainty_threshold n_iter fuel (i + 1)
        ⟨lpStep inp certainty_threshold n_iter i P,
          some (assignment (lpStep inp certainty_threshold n_iter i P)), w⟩
  | fuel + 1, i, ⟨P, some p, w⟩ =>
    if 5 ≤ i ∧ drift (assignment (lpStep inp certainty_threshold n_iter i P)) p < 1 / 1000 then
      .ok ⟨lpStep inp certainty_threshold n_iter i P, w, i + 1, true⟩
    else if i = n_iter - 1 then
      lpLoop inp certainty_threshold n_iter fuel (i + 1)
        ⟨lpStep inp certainty_threshold n_iter i P,
          some (assignment (lpStep inp certainty_threshold n_iter i P)),
          w ++ [drift (assignment (lpStep inp certainty_threshold n_iter i P)) p]⟩
    else
      lpLoop inp certainty_threshold n_iter fuel (i + 1)
        ⟨lpStep inp certainty_threshold n_iter i P,
          some (assignment (lpStep inp certainty_threshold n_iter i P)), w⟩

/-- `label_propagation(results, connectivities, n_iter, certainty_threshold)`
(utils.py lines 195-241), up to the loop's observable outcome: the final
`proba_tier_0` (from which the output columns and the final `idxmax` prediction
are read off), the printed warnings, and how the loop ended. -/
def label_propagation (inp : LPInput n) (n_iter : ℕ) (certainty_threshold : ℚ) :
    Except LPError (LPOut n) :=
  lpLoop inp certainty_threshold n_iter n_iter 0 ⟨initProba inp, none, []⟩

/-- `cell_annotator` (utils.py lines 147-192): the LogisticRegression fit and
`predict_proba` are external library calls, abstracted as the supplied
`predictProba`; the function writes its two columns into the result table next
to the signature-score columns and hands everything to `label_propagation`.
No input validation of any kind is performed. -/
def cell_annotator (sigNormal sigTumor : Fin n → ℚ) (conn : Fin n → Fin n → ℚ)
    (predictProba : Fin n → ℚ × ℚ) (n_iter : ℕ) (certainty_threshold : ℚ) :
    Except LPError (LPOut n) :=
  label_propagation
    ⟨sigNormal, sigTumor, fun c => (predictProba c).1, fun c => (predictProba c).2, conn⟩
    n_iter certainty_threshold

/-- `true` iff the computation returned without raising. -/
def isOkE (e : Except LPError (LPOut n)) : Bool :=
  match e with
  | .ok _ => true
  | .error _ => false

/-! ### Arithmetic facts about the interpolation positions -/

theorem floor_toNat_cast {x : ℚ} (hx : 0 ≤ x) : (((⌊x⌋).toNat : ℕ) : ℚ) = ((⌊x⌋ : ℤ) : ℚ) := by
  rw [← Int.cast_natCast, Int.toNat_of_nonneg (Int.floor_nonneg.2 hx)]

theorem floor_toNat_le {x : ℚ} (hx : 0 ≤ x) : (((⌊x⌋).toNat : ℕ) : ℚ) ≤ x := by
  rw [floor_toNat_cast hx]
  exact Int.floor_le x

theorem lt_floor_toNat_add_one {x : ℚ} (hx : 0 ≤ x) : x < ((⌊x⌋).toNat : ℚ) + 1 := by
  rw [floor_toNat_cast hx]
  exact_mod_cast Int.lt_floor_add_one x

theorem ceil_toNat_eq {x : ℚ} (hx : 0 ≤ x) (hlt : (((⌊x⌋).toNat : ℕ) : ℚ) < x) :
    (⌈x⌉).toNat = (⌊x⌋).toNat + 1 := by
  have h0 : (0:ℤ) ≤ ⌊x⌋ := Int.floor_nonneg.2 hx
  have hfx : ((⌊x⌋ : ℤ) : ℚ) < x := by rw [← floor_toNat_cast hx]; exact hlt
  have h1 : ⌊x⌋ < ⌈x⌉ := by exact_mod_cast lt_of_lt_of_le hfx (Int.le_ceil x)
  have h2 : ⌈x⌉ ≤ ⌊x⌋ + 1 := Int.ceil_le_floor_add_one x
  omega

theorem floor_toNat_mono {a b : ℚ} (hab : a ≤ b) : (⌊a⌋).toNat ≤ (⌊b⌋).toNat := by
  have := Int.floor_le_floor hab
  omega

theorem one_le_of_pos_le {x : ℚ} {L : ℕ} (hx : 0 ≤ x) (hxL : x ≤ (L : ℚ) - 1) : 1 ≤ L := by
  have : (1:ℚ) ≤ (L : ℚ) := by linarith
  exact_mod_cast this

theorem floor_toNat_lt_length {x : ℚ} {L : ℕ} (hx : 0 ≤ x) (hxL : x ≤ (L : ℚ) - 1) :
    (⌊x⌋).toNat < L := by
  have hL := one_le_of_pos_le hx hxL
  have h2 : (((⌊x⌋).toNat : ℕ) : ℚ) ≤ ((L - 1 : ℕ) : ℚ) := by
    rw [Nat.cast_sub hL, Nat.cast_one]
    exact le_trans (floor_toNat_le hx) hxL
  have h3 : (⌊x⌋).toNat ≤ L - 1 := by exact_mod_cast h2
  omega

theorem floor_toNat_succ_lt_length {x : ℚ} {L : ℕ} (hx : 0 ≤ x) (hxL : x ≤ (L : ℚ) - 1)
    (hlt : (((⌊x⌋).toNat : ℕ) : ℚ) < x) : (⌊x⌋).toNat + 1 < L := by
  have hL := one_le_of_pos_le hx hxL
  have h2 : (((⌊x⌋).toNat : ℕ) : ℚ) < ((L - 1 : ℕ) : ℚ) := by
    rw [Nat.cast_sub hL, Nat.cast_one]
    exact lt_of_lt_of_le hlt hxL
  have h3 : (⌊x⌋).toNat < L - 1 := by exact_mod_cast h2
  omega

/-! ### Monotonicity of the linear-interpolation quantile -/

theorem sorted_getD_le {s : List ℚ} (hs : s.Sorted (· ≤ ·)) {i j : ℕ}
    (hij : i ≤ j) (hj : j < s.length) : s.getD i 0 ≤ s.getD j 0 := by
  have hi : i < s.length := lt_of_le_of_lt hij hj
  rw [List.getD_eq_getElem _ _ hi, List.getD_eq_getElem _ _ hj]
  rcases eq_or_lt_of_le hij with rfl | hlt
  · exact le_refl _
  · have h := hs.rel_get_of_lt (a := ⟨i, hi⟩) (b := ⟨j, hj⟩) hlt
    simpa using h

theorem qinterp_ge {s : List ℚ} (hs : s.Sorted (· ≤ ·)) {x : ℚ}
    (hx : 0 ≤ x) (hxs : x ≤ (s.length : ℚ) - 1) :
    s.getD (⌊x⌋).toNat 0 ≤ qinterp s x := by
  rcases eq_or_lt_of_le (floor_toNat_le hx) with heq | hlt
  · unfold qinterp
    rw [heq, sub_self, zero_mul, add_zero]
  · have hk1 : (⌈x⌉).toNat = (⌊x⌋).toNat + 1 := ceil_toNat_eq hx hlt
    have hklen : (⌊x⌋).toNat + 1 < s.length := floor_toNat_succ_lt_length hx hxs hlt
    have hd : 0 ≤ s.getD ((⌊x⌋).toNat + 1) 0 - s.getD (⌊x⌋).toNat 0 :=
      sub_nonneg.2 (sorted_getD_le hs (Nat.le_succ _) hklen)
    unfold qinterp
    rw [hk1]
    have hmul : 0 ≤ (x - ((⌊x⌋).toNat : ℚ)) *
        (s.getD ((⌊x⌋).toNat + 1) 0 - s.getD (⌊x⌋).toNat 0) :=
      mul_nonneg (by linarith) hd
    linarith

theorem qinterp_le_succ {s : List ℚ} (hs : s.Sorted (· ≤ ·)) {x : ℚ}
    (hx : 0 ≤ x) (hklen : (⌊x⌋).toNat + 1 < s.length) :
    qinterp s x ≤ s.getD ((⌊x⌋).toNat + 1) 0 := by
  have hd : 0 ≤ s.getD ((⌊x⌋).toNat + 1) 0 - s.getD (⌊x⌋).toNat 0 :=
    sub_nonneg.2 (sorted_getD_le hs (Nat.le_succ _) hklen)
  rcases eq_or_lt_of_le (floor_toNat_le hx) with heq | hlt
  · unfold qinterp
    rw [heq, sub_self, zero_mul, add_zero]
    linarith
  · have hk1 : (⌈x⌉).toNat = (⌊x⌋).toNat + 1 := ceil_toNat_eq hx hlt
    unfold qinterp
    rw [hk1]
    have hx1 : x - ((⌊x⌋).toNat : ℚ) ≤ 1 := by
      have := lt_floor_toNat_add_one hx
      linarith
    have hmul : (x - ((⌊x⌋).toNat : ℚ)) *
          (s.getD ((⌊x⌋).toNat + 1) 0 - s.getD (⌊x⌋).toNat 0)
        ≤ 1 * (s.getD ((⌊x⌋).toNat + 1) 0 - s.getD (⌊x⌋).toNat 0) :=
      mul_le_mul_of_nonneg_right hx1 hd
    linarith

theorem qinterp_mono {s : List ℚ} (hs : s.Sorted (· ≤ ·)) {a b : ℚ}
    (ha : 0 ≤ a) (hab : a ≤ b) (hbs : b ≤ (s.length : ℚ) - 1) :
    qinterp s a ≤ qinterp s b := by
  have hb : 0 ≤ b := le_trans ha hab
  have has : a ≤ (s.length : ℚ) - 1 := le_trans hab hbs
  have hkk : (⌊a⌋).toNat ≤ (⌊b⌋).toNat := floor_toNat_mono hab
  rcases eq_or_lt_of_le hkk with heq | hlt
  · rcases eq_or_lt_of_le (floor_toNat_le hb) with heqb | hltb
    · have hba : b ≤ a := by
        calc b = (((⌊b⌋).toNat : ℕ) : ℚ) := heqb.symm
        _ = (((⌊a⌋).toNat : ℕ) : ℚ) := by rw [heq]
        _ ≤ a := floor_toNat_le ha
      have : a = b := le_antisymm hab hba
      rw [this]
    · have hkb1 : (⌈b⌉).toNat = (⌊b⌋).toNat + 1 := ceil_toNat_eq hb hltb
      have hklen : (⌊b⌋).toNat + 1 < s.length := floor_toNat_succ_lt_length hb hbs hltb
      have hd : 0 ≤ s.getD ((⌊b⌋).toNat + 1) 0 - s.getD (⌊b⌋).toNat 0 :=
        sub_nonneg.2 (sorted_getD_le hs (Nat.le_succ _) hklen)
      rcases eq_or_lt_of_le (floor_toNat_le ha) with heqa | hlta
      · unfold qinterp
        rw [hkb1, heqa, sub_self, zero_mul, add_zero, heq]
        have hmul : 0 ≤ (b - (((⌊b⌋).toNat : ℕ) : ℚ)) *
            (s.getD ((⌊b⌋).toNat + 1) 0 - s.getD (⌊b⌋).toNat 0) :=
          mul_nonneg (by linarith) hd
        linarith
      · have hka1 : (⌈a⌉).toNat = (⌊a⌋).toNat + 1 := ceil_toNat_eq ha hlta
        unfold qinterp
        rw [hkb1, hka1, heq]
        have hmul : (a - (((⌊b⌋).toNat : ℕ) : ℚ)) *
              (s.getD ((⌊b⌋).toNat + 1) 0 - s.getD (⌊b⌋).toNat 0)
            ≤ (b - (((⌊b⌋).toNat : ℕ) : ℚ)) *
              (s.getD ((⌊b⌋).toNat + 1) 0 - s.getD (⌊b⌋).toNat 0) :=
          mul_le_mul_of_nonneg_right (by linarith) hd
        linarith
  · have hkbl : (⌊b⌋).toNat < s.length := floor_toNat_lt_length hb hbs
    have h1 : qinterp s a ≤ s.getD ((⌊a⌋).toNat + 1) 0 :=
      qinterp_le_succ hs ha (lt_of_le_of_lt hlt hkbl)
    have h2 : s.getD ((⌊a⌋).toNat + 1) 0 ≤ s.getD (⌊b⌋).toNat 0 :=
      sorted_getD_le hs hlt hkbl
    have h3 : s.getD (⌊b⌋).toNat 0 ≤ qinterp s b := qinterp_ge hs hb hbs
    linarith

theorem quantile_mono (xs : List ℚ) (hne : xs ≠ []) {q1 q2 : ℚ}
    (h0 : 0 ≤ q1) (h12 : q1 ≤ q2) (h1 : q2 ≤ 1) :
    quantile xs q1 ≤ quantile xs q2 := by
  have hlen : 1 ≤ xs.length := by
    cases xs with
    | nil => exact absurd rfl hne
    | cons a l => simp
  have hm : 0 ≤ (xs.length : ℚ) - 1 := by
    have : (1:ℚ) ≤ (xs.length : ℚ) := by exact_mod_cast hlen
    linarith
  have hsorted : (xs.insertionSort (· ≤ ·)).Sorted (· ≤ ·) :=
    List.sorted_insertionSort (· ≤ ·) xs
  have hslen : (xs.insertionSort (· ≤ ·)).length = xs.length :=
    List.length_insertionSort (· ≤ ·) xs
  unfold quantile
  apply qinterp_mono hsorted (mul_nonneg h0 hm) (mul_le_mul_of_nonneg_right h12 hm)
  rw [hslen]
  calc q2 * ((xs.length : ℚ) - 1) ≤ 1 * ((xs.length : ℚ) - 1) :=
        mul_le_mul_of_nonneg_right h1 hm
  _ = (xs.length : ℚ) - 1 := one_mul _

/-! ### The threshold schedule -/

theorem np_linspace_eq (num i : ℕ) :
    np_linspace 1 0 num i = 1 - (i : ℚ) / ((num : ℚ) - 1) := by
  unfold np_linspace
  ring

theorem np_linspace_nonneg {num i : ℕ} (hn : 2 ≤ num) (hi : i < num) :
    0 ≤ np_linspace 1 0 num i := by
  rw [np_linspace_eq]
  have hD : (0:ℚ) < (num : ℚ) - 1 := by
    have : (2:ℚ) ≤ (num : ℚ) := by exact_mod_cast hn
    linarith
  have hiD : (i : ℚ) ≤ (num : ℚ) - 1 := by
    have h2 : ((i : ℕ) : ℚ) ≤ ((num - 1 : ℕ) : ℚ) := by exact_mod_cast Nat.le_sub_one_of_lt hi
    rwa [Nat.cast_sub (by omega), Nat.cast_one] at h2
  have : (i : ℚ) / ((num : ℚ) - 1) ≤ 1 := (div_le_one hD).2 hiD
  linarith

theorem np_linspace_le_one {num : ℕ} (i : ℕ) (hn : 2 ≤ num) :
    np_linspace 1 0 num i ≤ 1 := by
  rw [np_linspace_eq]
  have hD : (0:ℚ) < (num : ℚ) - 1 := by
    have : (2:ℚ) ≤ (num : ℚ) := by exact_mod_cast hn
    linarith
  have : 0 ≤ (i : ℚ) / ((num : ℚ) - 1) := by positivity
  linarith

theorem np_linspace_anti {num i j : ℕ} (hn : 2 ≤ num) (hij : i ≤ j) :
    np_linspace 1 0 num j ≤ np_linspace 1 0 num i := by
  rw [np_linspace_eq, np_linspace_eq]
  have hD : (0:ℚ) < (num : ℚ) - 1 := by
    have : (2:ℚ) ≤ (num : ℚ) := by exact_mod_cast hn
    linarith
  have hij2 : (i : ℚ) ≤ (j : ℚ) := by exact_mod_cast hij
  have : (i : ℚ) / ((num : ℚ) - 1) ≤ (j : ℚ) / ((num : ℚ) - 1) := by gcongr
  linarith

theorem thresholdAt_nonneg {t : ℚ} {n_iter i : ℕ} (h0 : 0 ≤ t) (hn : 2 ≤ n_iter)
    (hi : i < n_iter) : 0 ≤ thresholdAt t n_iter i :=
  mul_nonneg h0 (np_linspace_nonneg hn hi)

theorem thresholdAt_le {t : ℚ} {n_iter : ℕ} (i : ℕ) (h0 : 0 ≤ t) (hn : 2 ≤ n_iter) :
    thresholdAt t n_iter i ≤ t :=
  mul_le_of_le_one_right h0 (np_linspace_le_one i hn)

theorem thresholdAt_anti {t : ℚ} {n_iter i j : ℕ} (h0 : 0 ≤ t) (hn : 2 ≤ n_iter)
    (hij : i ≤ j) : thresholdAt t n_iter j ≤ thresholdAt t n_iter i :=
  mul_le_mul_of_nonneg_left (np_linspace_anti hn hij) h0

theorem absdifList_length (inp : LPInput n) : (absdifList inp).length = n := by
  simp [absdifList]

theorem absdifList_ne_nil (inp : LPInput n) (c : Fin n) : absdifList inp ≠ [] := by
  have h : 0 < (absdifList inp).length := by
    rw [absdifList_length]
    exact c.pos
  exact List.ne_nil_of_length_pos h

/-! ### Unfolding lemmas for one loop iteration -/

theorem lpLoop_break (inp : LPInput n) (t : ℚ) (n_iter fuel i : ℕ)
    (P : Fin n → ℚ × ℚ) (p : Fin n → Bool) (w : List ℚ)
    (h5 : 5 ≤ i) (hd : drift (assignment (lpStep inp t n_iter i P)) p < 1 / 1000) :
    lpLoop inp t n_iter (fuel + 1) i ⟨P, some p, w⟩
      = .ok ⟨lpStep inp t n_iter i P, w, i + 1, true⟩ := by
  simp only [lpLoop]
  rw [if_pos ⟨h5, hd⟩]

theorem lpLoop_cont (inp : LPInput n) (t : ℚ) (n_iter fuel i : ℕ)
    (P : Fin n → ℚ × ℚ) (p : Fin n → Bool) (w : List ℚ)
    (h : ¬ (5 ≤ i ∧ drift (assignment (lpStep inp t n_iter i P)) p < 1 / 1000))
    (hni : i ≠ n_iter - 1) :
    lpLoop inp t n_iter (fuel + 1) i ⟨P, some p, w⟩
      = lpLoop inp t n_iter fuel (i + 1)
          ⟨lpStep inp t n_iter i P, some (assignment (lpStep inp t n_iter i P)), w⟩ := by
  simp only [lpLoop]
  rw [if_neg h, if_neg hni]

theorem lpLoop_warn (inp : LPInput n) (t : ℚ) (n_iter fuel i : ℕ)
    (P : Fin n → ℚ × ℚ) (p : Fin n → Bool) (w : List ℚ)
    (h : ¬ (5 ≤ i ∧ drift (assignment (lpStep inp t n_iter i P)) p < 1 / 1000))
    (hni : i = n_iter - 1) :
    lpLoop inp t n_iter (fuel + 1) i ⟨P, some p, w⟩
      = lpLoop inp t n_iter fuel (i + 1)
          ⟨lpStep inp t n_iter i P, some (assignment (lpStep inp t n_iter i P)),
            w ++ [drift (assignment (lpStep inp t n_iter i P)) p]⟩ := by
  simp only [lpLoop]
  rw [if_neg h, if_pos hni]

theorem lpLoop_none_warn (inp : LPInput n) (t : ℚ) (n_iter fuel i : ℕ)
    (P : Fin n → ℚ × ℚ) (w : List ℚ)
    (h5 : ¬ 5 ≤ i) (hni : i = n_iter - 1) :
    lpLoop inp t n_iter (fuel + 1) i ⟨P, none, w⟩ = .error .nameError := by
  simp only [lpLoop]
  rw [if_neg h5, if_pos hni]

theorem lpLoop_none_cont (inp : LPInput n) (t : ℚ) (n_iter fuel i : ℕ)
    (P : Fin n → ℚ × ℚ) (w : List ℚ)
    (h5 : ¬ 5 ≤ i) (hni : i ≠ n_iter - 1) :
    lpLoop inp t n_iter (fuel + 1) i ⟨P, none, w⟩
      = lpLoop inp t n_iter fuel (i + 1)
          ⟨lpStep inp t n_iter i P, some (assignment (lpStep inp t n_iter i P)), w⟩ := by
  simp only [lpLoop]
  rw [if_neg h5, if_neg hni]

/-! ### Characterization of complete runs -/

theorem driftAt_def (inp : LPInput n) (t : ℚ) (n_iter i : ℕ) :
    driftAt inp t n_iter i
      = drift (assignment (lpStep inp t n_iter i (probaSeq inp t n_iter i)))
          (assignAt inp t n_iter (i - 1)) := rfl

theorem lpLoop_run_stop (inp : LPInput n) (t : ℚ) (n_iter j0 : ℕ)
    (hj5 : 5 ≤ j0) (hjn : j0 < n_iter) (hjd : driftAt inp t n_iter j0 < 1 / 1000) :
    ∀ fuel i, i + fuel = n_iter → 1 ≤ i → i ≤ j0 →
    (∀ j, i ≤ j → j < j0 → ¬ (5 ≤ j ∧ driftAt inp t n_iter j < 1 / 1000)) →
    lpLoop inp t n_iter fuel i
        ⟨probaSeq inp t n_iter i, some (assignAt inp t n_iter (i - 1)), []⟩
      = .ok ⟨probaSeq inp t n_iter (j0 + 1), [], j0 + 1, true⟩ := by
  intro fuel
  induction fuel with
  | zero => intro i hif h1 hij _; omega
  | succ f ih =>
    intro i hif h1 hij hmin
    rcases eq_or_lt_of_le hij with rfl | hlt
    · rw [lpLoop_break inp t n_iter f i _ _ _ hj5 hjd]
      rfl
    · rw [lpLoop_cont inp t n_iter f i _ _ _ (hmin i le_rfl hlt) (by omega)]
      have hassign : assignment (lpStep inp t n_iter i (probaSeq inp t n_iter i))
          = assignAt inp t n_iter ((i + 1) - 1) := by
        simp [assignAt, probaSeq]
      have hstep : lpStep inp t n_iter i (probaSeq inp t n_iter i)
          = probaSeq inp t n_iter (i + 1) := rfl
      rw [hassign, hstep]
      exact ih (i + 1) (by omega) (by omega) (by omega)
        (fun j hj1 hj2 => hmin j (by omega) hj2)

theorem lpLoop_run_exhaust (inp : LPInput n) (t : ℚ) (n_iter : ℕ)
    (hdr : ∀ j, 5 ≤ j → j < n_iter → ¬ driftAt inp t n_iter j < 1 / 1000) :
    ∀ fuel i, i + fuel = n_iter → 1 ≤ i → i < n_iter →
    lpLoop inp t n_iter fuel i
        ⟨probaSeq inp t n_iter i, some (assignAt inp t n_iter (i - 1)), []⟩
      = .ok ⟨probaSeq inp t n_iter n_iter, [driftAt inp t n_iter (n_iter - 1)],
          n_iter, false⟩ := by
  intro fuel
  induction fuel with
  | zero => intro i hif h1 hi; omega
  | succ f ih =>
    intro i hif h1 hi
    have hno : ¬ (5 ≤ i ∧ drift (assignment (lpStep inp t n_iter i (probaSeq inp t n_iter i)))
        (assignAt inp t n_iter (i - 1)) < 1 / 1000) := by
      intro hpair
      exact hdr i hpair.1 hi (by rw [driftAt_def]; exact hpair.2)
    by_cases hlast : i = n_iter - 1
    · rw [lpLoop_warn inp t n_iter f i _ _ _ hno hlast]
      have hf0 : f = 0 := by omega
      subst hf0
      have hi1 : i + 1 = n_iter := by omega
      simp only [lpLoop]
      have hdval : drift (assignment (lpStep inp t n_iter i (probaSeq inp t n_iter i)))
          (assignAt inp t n_iter (i - 1)) = driftAt inp t n_iter (n_iter - 1) := by
        rw [← hlast]
        exact (driftAt_def inp t n_iter i).symm
      have hstep : lpStep inp t n_iter i (probaSeq inp t n_iter i)
          = probaSeq inp t n_iter (i + 1) := rfl
      rw [hdval, hstep, hi1]
      simp
    · rw [lpLoop_cont inp t n_iter f i _ _ _ hno hlast]
      have hassign : assignment (lpStep inp t n_iter i (probaSeq inp t n_iter i))
          = assignAt inp t n_iter ((i + 1) - 1) := by
        simp [assignAt, probaSeq]
      have hstep : lpStep inp t n_iter i (probaSeq inp t n_iter i)
          = probaSeq inp t n_iter (i + 1) := rfl
      rw [hassign, hstep]
      exact ih (i + 1) (by omega) (by omega) (by omega)

theorem label_propagation_enter (inp : LPInput n) (n_iter : ℕ) (t : ℚ) (hn : 2 ≤ n_iter) :
    label_propagation inp n_iter t
      = lpLoop inp t n_iter (n_iter - 1) 1
          ⟨probaSeq inp t n_iter 1, some (assignAt inp t n_iter 0), []⟩ := by
  obtain ⟨m, rfl⟩ : ∃ m, n_iter = m + 2 := ⟨n_iter - 2, by omega⟩
  unfold label_propagation
  rw [show m + 2 = (m + 1) + 1 from rfl]
  rw [lpLoop_none_cont inp t (m + 1 + 1) (m + 1) 0 _ _ (by omega) (by omega)]
  rfl

theorem label_propagation_stop_char (inp : LPInput n) (n_iter : ℕ) (t : ℚ) (hn : 2 ≤ n_iter)
    (hstop : ∃ j, 5 ≤ j ∧ j < n_iter ∧ driftAt inp t n_iter j < 1 / 1000) :
    label_propagation inp n_iter t
      = .ok ⟨probaSeq inp t n_iter (Nat.find hstop + 1), [], Nat.find hstop + 1, true⟩ := by
  obtain ⟨h5, hlt, hd⟩ := Nat.find_spec hstop
  rw [label_propagation_enter inp n_iter t hn]
  exact lpLoop_run_stop inp t n_iter (Nat.find hstop) h5 hlt hd (n_iter - 1) 1
    (by omega) le_rfl (by omega)
    (fun j hj1 hj2 hpair => Nat.find_min hstop hj2 ⟨hpair.1, by omega, hpair.2⟩)

theorem label_propagation_exhaust_char (inp : LPInput n) (n_iter : ℕ) (t : ℚ) (hn : 2 ≤ n_iter)
    (hdr : ∀ j, 5 ≤ j → j < n_iter → ¬ driftAt inp t n_iter j < 1 / 1000) :
    label_propagation inp n_iter t
      = .ok ⟨probaSeq inp t n_iter n_iter, [driftAt inp t n_iter (n_iter - 1)],
          n_iter, false⟩ := by
  rw [label_propagation_enter inp n_iter t hn]
  exact lpLoop_run_exhaust inp t n_iter hdr (n_iter - 1) 1 (by omega) le_rfl (by omega)

/-! ### Concrete runs used as witnesses and counterexamples -/

/-- One isolated cell with zero signature scores, classifier fully confident in
Normal, self-loop of weight 1. -/
def exA : LPInput 1 :=
  ⟨fun _ => 0, fun _ => 0, fun _ => 1, fun _ => 0, fun _ _ => 1⟩

/-- Two cells: cell 0 has signature scores (1, 0) and classifier probabilities
(9/10, 1/10); cell 1 has scores (0, 0) and probabilities (1/2, 1/2); complete
graph of weight 1. -/
def ex2 : LPInput 2 :=
  ⟨![1, 0], ![0, 0], ![9/10, 1/2], ![1/10, 1/2], fun _ _ => 1⟩

/-- Two cells whose signature-score confidence and classifier-probability
confidence order the cells oppositely. -/
def ex3 : LPInput 2 :=
  ⟨![0, 1], ![0, 0], ![1, 1/2], ![0, 1/2], fun _ _ => 1⟩

/-- Same signature scores as ex3 but different classifier probabilities. -/
def ex3b : LPInput 2 :=
  ⟨![0, 1], ![0, 0], ![1/3, 2/3], ![2/3, 1/3], fun _ _ => 1⟩

/-- One cell whose connectivity row is all zero: the propagate step produces a
zero row sum. -/
def ex5 : LPInput 1 :=
  ⟨fun _ => 0, fun _ => 0, fun _ => 1, fun _ => 0, fun _ _ => 0⟩

def sigN9 : Fin 1 → ℚ := fun _ => 0

def sigT9 : Fin 1 → ℚ := fun _ => 0

def conn9 : Fin 1 → Fin 1 → ℚ := fun _ _ => 1

def pp9 : Fin 1 → ℚ × ℚ := fun _ => (1, 0)

theorem finRange_one : List.finRange 1 = [0] := by decide

theorem finRange_two : List.finRange 2 = [0, 1] := by decide

theorem ceil_half : ⌈(1:ℚ)/2⌉ = 1 := by
  rw [Int.ceil_eq_iff]
  norm_num

theorem quantile_10_half : quantile [1, 0] (1/2) = 1/2 := by
  norm_num [quantile, qinterp, List.insertionSort, List.orderedInsert, ceil_half]

theorem quantile_10_zero : quantile [1, 0] 0 = 0 := by
  norm_num [quantile, qinterp, List.insertionSort, List.orderedInsert]

theorem quantile_01_half : quantile [0, 1] (1/2) = 1/2 := by
  norm_num [quantile, qinterp, List.insertionSort, List.orderedInsert, ceil_half]

theorem th_2_0 : thresholdAt (1/2) 2 0 = 1/2 := by
  norm_num [thresholdAt, np_linspace]

theorem th_2_1 : thresholdAt (1/2) 2 1 = 0 := by
  norm_num [thresholdAt, np_linspace]

theorem th_3_0 : thresholdAt (1/2) 3 0 = 1/2 := by
  norm_num [thresholdAt, np_linspace]

theorem exA_step (t : ℚ) (n_iter i : ℕ) (P : Fin 1 → ℚ × ℚ) (c : Fin 1) :
    lpStep exA t n_iter i P c = (1/2, 1/2) := by
  simp [lpStep, propagateRow, maskRow, certainAt, quantile, qinterp, absdifList, absdif, exA,
    finRange_one]
  norm_num

theorem exA_probaSeq (t : ℚ) (n_iter i : ℕ) (c : Fin 1) :
    probaSeq exA t n_iter (i + 1) c = (1/2, 1/2) := by
  simp [probaSeq, exA_step]

theorem exA_assignAt (t : ℚ) (n_iter i : ℕ) : assignAt exA t n_iter i = fun _ => false := by
  funext c
  simp [assignAt, assignment, exA_probaSeq]

theorem exA_driftAt (t : ℚ) (n_iter i : ℕ) : driftAt exA t n_iter i = 0 := by
  simp [driftAt, exA_assignAt, drift, finRange_one]

theorem ex2_absdifList : absdifList ex2 = [1, 0] := by
  rw [absdifList, finRange_two]
  simp [absdif, ex2]

theorem ex2_absdif0 : absdif ex2 0 = 1 := by
  simp [absdif, ex2]

theorem ex2_absdif1 : absdif ex2 1 = 0 := by
  simp [absdif, ex2]

theorem ex2_c00 : certainAt ex2 (1/2) 2 0 0 := by
  unfold certainAt
  rw [ex2_absdifList, ex2_absdif0, th_2_0, quantile_10_half]
  norm_num

theorem ex2_c01 : ¬ certainAt ex2 (1/2) 2 0 1 := by
  unfold certainAt
  rw [ex2_absdifList, ex2_absdif1, th_2_0, quantile_10_half]
  norm_num

theorem ex2_c10 : certainAt ex2 (1/2) 2 1 0 := by
  unfold certainAt
  rw [ex2_absdifList, ex2_absdif0, th_2_1, quantile_10_zero]
  norm_num

theorem ex2_c300 : certainAt ex2 (1/2) 3 0 0 := by
  unfold certainAt
  rw [ex2_absdifList, ex2_absdif0, th_3_0, quantile_10_half]
  norm_num

theorem ex2_mask0 : maskRow ex2 (1/2) 2 0 (initProba ex2) 0 = (9/10, 1/10) := by
  unfold maskRow
  rw [if_pos ex2_c00]
  simp [initProba, ex2]

theorem ex2_mask1 : maskRow ex2 (1/2) 2 0 (initProba ex2) 1 = (1/1000000, 1/1000000) := by
  unfold maskRow
  rw [if_neg ex2_c01]

theorem ex2_probaSeq1 : probaSeq ex2 (1/2) 2 1 0 = (900001/1000002, 100001/1000002) := by
  show lpStep ex2 (1/2) 2 0 (initProba ex2) 0 = _
  simp only [lpStep, propagateRow, finRange_two, List.map_cons, List.map_nil, List.sum_cons,
    List.sum_nil, ex2_mask0, ex2_mask1]
  norm_num [Prod.ext_iff, ex2]

theorem ex2_propRowSum : propRowSum ex2 (1/2) 2 0 0 = 500001/500000 := by
  have hmask : maskedAt ex2 (1/2) 2 0 = maskRow ex2 (1/2) 2 0 (initProba ex2) := rfl
  simp only [propRowSum, hmask, propagateRow, finRange_two, List.map_cons,
    List.map_nil, List.sum_cons, List.sum_nil, ex2_mask0, ex2_mask1]
  norm_num [ex2]

theorem ex3_absdif1 : absdif ex3 1 = 1 := by
  simp [absdif, ex3]

theorem ex3_spec1 : confidenceSpec ex3 1 = 0 := by
  simp [confidenceSpec, ex3]

theorem ex3_absdifList : absdifList ex3 = [0, 1] := by
  rw [absdifList, finRange_two]
  simp [absdif, ex3]

theorem ex3_specList : (List.finRange 2).map (confidenceSpec ex3) = [1, 0] := by
  rw [finRange_two]
  simp [confidenceSpec, ex3]

theorem ex5_propRowSum : propRowSum ex5 (1/2) 2 0 0 = 0 := by
  simp only [propRowSum, maskedAt, probaSeq, propagateRow, finRange_one, List.map_cons,
    List.map_nil, List.sum_cons, List.sum_nil]
  simp [ex5]

theorem ex5_probaSeq1 : probaSeq ex5 (1/2) 2 1 0 = (0, 0) := by
  show lpStep ex5 (1/2) 2 0 (initProba ex5) 0 = _
  simp only [lpStep, propagateRow, finRange_one, List.map_cons, List.map_nil, List.sum_cons,
    List.sum_nil]
  simp [ex5]

theorem ex5_run : label_propagation ex5 2 (1/2)
    = .ok ⟨probaSeq ex5 (1/2) 2 2, [driftAt ex5 (1/2) 2 1], 2, false⟩ := by
  have h := label_propagation_exhaust_char ex5 2 (1/2) (by norm_num)
    (fun j h5 h2 => absurd h2 (by omega))
  simpa using h

/-! ### The claims -/

/-- C1 (counterexample): on a one-cell run with zero drift at every iteration
(in particular from iteration 5 onward) and budget 10, the loop halts after 6
iterations, i.e. at 0-indexed iteration 5, not at 0-indexed iteration 4 as the
claim states — even though the drift at iteration 4 is already 0. -/
theorem C1_counterexample :
    (∀ j, 5 ≤ j → j ≤ 9 → driftAt exA (1/2) 10 j = 0) ∧
    driftAt exA (1/2) 10 4 = 0 ∧
    (label_propagation exA 10 (1/2)).map LPOut.iters = .ok 6 ∧
    (label_propagation exA 10 (1/2)).map LPOut.iters ≠ .ok 5 := by
  have hstop : ∃ j, 5 ≤ j ∧ j < 10 ∧ driftAt exA (1/2) 10 j < 1 / 1000 :=
    ⟨5, le_rfl, by omega, by rw [exA_driftAt]; norm_num⟩
  have hfind : Nat.find hstop = 5 :=
    le_antisymm (Nat.find_le ⟨le_rfl, by omega, by rw [exA_driftAt]; norm_num⟩)
      (Nat.find_spec hstop).1
  have hrun := label_propagation_stop_char exA 10 (1/2) (by norm_num) hstop
  rw [hfind] at hrun
  refine ⟨fun j _ _ => exA_driftAt (1/2) 10 j, exA_driftAt (1/2) 10 4, ?_, ?_⟩
  · rw [hrun]
    rfl
  · rw [hrun]
    intro h
    have h65 : (6 : ℕ) = 5 := Except.ok.inj h
    exact absurd h65 (by norm_num)

/-- C1 (amended): early stop never occurs during iterations 0 through 4
(zero-indexed); from iteration 5 onward, the loop stops at the first iteration
whose drift is below 0.001; in particular, for a run with zero drift at
iteration 5 the loop halts exactly at 0-indexed iteration 5 (6 executed
iterations) and emits no non-convergence warning. -/
theorem C1_amended (inp : LPInput n) (n_iter : ℕ) (t : ℚ) (hn : 2 ≤ n_iter) :
    (∀ out, label_propagation inp n_iter t = .ok out → out.earlyStopped = true →
      ∃ j, 5 ≤ j ∧ out.iters = j + 1 ∧ driftAt inp t n_iter j < 1 / 1000 ∧
        ∀ j2, 5 ≤ j2 → j2 < j → ¬ driftAt inp t n_iter j2 < 1 / 1000) ∧
    (6 ≤ n_iter → driftAt inp t n_iter 5 = 0 →
      label_propagation inp n_iter t = .ok ⟨probaSeq inp t n_iter 6, [], 6, true⟩) := by
  constructor
  · intro out hok hes
    by_cases hstop : ∃ j, 5 ≤ j ∧ j < n_iter ∧ driftAt inp t n_iter j < 1 / 1000
    · have hrun := label_propagation_stop_char inp n_iter t hn hstop
      rw [hok] at hrun
      obtain ⟨h5, hltn, hd⟩ := Nat.find_spec hstop
      have hout := Except.ok.inj hrun
      subst hout
      refine ⟨Nat.find hstop, h5, rfl, hd, ?_⟩
      intro j2 hj5 hjlt hdj
      exact Nat.find_min hstop hjlt ⟨hj5, by omega, hdj⟩
    · have hdr : ∀ j, 5 ≤ j → j < n_iter → ¬ driftAt inp t n_iter j < 1 / 1000 :=
        fun j a b c => hstop ⟨j, a, b, c⟩
      have hrun := label_propagation_exhaust_char inp n_iter t hn hdr
      rw [hok] at hrun
      have hout := Except.ok.inj hrun
      rw [hout] at hes
      simp at hes
  · intro h6 hd0
    have hstop : ∃ j, 5 ≤ j ∧ j < n_iter ∧ driftAt inp t n_iter j < 1 / 1000 :=
      ⟨5, le_rfl, by omega, by rw [hd0]; norm_num⟩
    have hfind : Nat.find hstop = 5 :=
      le_antisymm (Nat.find_le ⟨le_rfl, by omega, by rw [hd0]; norm_num⟩)
        (Nat.find_spec hstop).1
    have hrun := label_propagation_stop_char inp n_iter t hn hstop
    rw [hfind] at hrun
    exact hrun

/-- C1 (witness): the amended statement applied to the concrete one-cell run. -/
theorem C1_witness :
    label_propagation exA 10 (1/2) = .ok ⟨probaSeq exA (1/2) 10 6, [], 6, true⟩ :=
  (C1_amended exA 10 (1/2) (by norm_num)).2 (by norm_num) (exA_driftAt (1/2) 10 5)

/-- C2 (counterexample): at iteration 1 of a two-cell run, cell 0 is certain,
yet the masked row fed to the propagate step is iteration 0's post-diffusion
row, not the cell's initial classifier probabilities. -/
theorem C2_counterexample :
    certainAt ex2 (1/2) 2 1 0 ∧
    maskedAt ex2 (1/2) 2 1 0 ≠ maskedFromInitial ex2 (1/2) 2 1 0 := by
  refine ⟨ex2_c10, ?_⟩
  have h1 : maskedAt ex2 (1/2) 2 1 0 = probaSeq ex2 (1/2) 2 1 0 := by
    unfold maskedAt maskRow
    rw [if_pos ex2_c10]
  have h2 : maskedFromInitial ex2 (1/2) 2 1 0 = (9/10, 1/10) := by
    unfold maskedFromInitial maskRow
    rw [if_pos ex2_c10]
    simp [initProba, ex2]
  rw [h1, h2, ex2_probaSeq1]
  intro hcontra
  have hfst := congrArg Prod.fst hcontra
  norm_num at hfst

/-- C2 (amended): at every iteration the mask step starts from the working
matrix produced by the previous iteration's renormalize step (the initial
classifier probabilities only at iteration 0): rows of cells uncertain at the
current threshold become the near-zero constant vector, rows of certain cells
keep the working matrix's values, and the next working matrix is the
row-normalized product of the connectivity matrix with this masked matrix. -/
theorem C2_amended (inp : LPInput n) (t : ℚ) (n_iter i : ℕ) (c : Fin n) :
    (certainAt inp t n_iter i c → maskedAt inp t n_iter i c = probaSeq inp t n_iter i c) ∧
    (¬ certainAt inp t n_iter i c → maskedAt inp t n_iter i c = (1/1000000, 1/1000000)) ∧
    probaSeq inp t n_iter (i + 1) c
      = ((propagateRow inp (maskedAt inp t n_iter i) c).1 /
          ((propagateRow inp (maskedAt inp t n_iter i) c).1 +
            (propagateRow inp (maskedAt inp t n_iter i) c).2),
         (propagateRow inp (maskedAt inp t n_iter i) c).2 /
          ((propagateRow inp (maskedAt inp t n_iter i) c).1 +
            (propagateRow inp (maskedAt inp t n_iter i) c).2)) := by
  refine ⟨fun h => ?_, fun h => ?_, rfl⟩
  · unfold maskedAt maskRow
    rw [if_pos h]
  · unfold maskedAt maskRow
    rw [if_neg h]

/-- C2 (witness): the amended statement applied to the concrete two-cell run
at iteration 1, cell 0. -/
theorem C2_witness :
    (certainAt ex2 (1/2) 2 1 0 → maskedAt ex2 (1/2) 2 1 0 = probaSeq ex2 (1/2) 2 1 0) ∧
    (¬ certainAt ex2 (1/2) 2 1 0 → maskedAt ex2 (1/2) 2 1 0 = (1/1000000, 1/1000000)) ∧
    probaSeq ex2 (1/2) 2 (1 + 1) 0
      = ((propagateRow ex2 (maskedAt ex2 (1/2) 2 1) 0).1 /
          ((propagateRow ex2 (maskedAt ex2 (1/2) 2 1) 0).1 +
            (propagateRow ex2 (maskedAt ex2 (1/2) 2 1) 0).2),
         (propagateRow ex2 (maskedAt ex2 (1/2) 2 1) 0).2 /
          ((propagateRow ex2 (maskedAt ex2 (1/2) 2 1) 0).1 +
            (propagateRow ex2 (maskedAt ex2 (1/2) 2 1) 0).2)) :=
  C2_amended ex2 (1/2) 2 1 0

/-- C3 (counterexample): the confidence score the code computes is the
absolute difference of the signature-score columns, not of the classifier's
probability columns: on ex3 they disagree at cell 1, and the induced global
certainty flags disagree there too. -/
theorem C3_counterexample :
    absdif ex3 1 = 1 ∧ confidenceSpec ex3 1 = 0 ∧
    absdif ex3 1 ≠ confidenceSpec ex3 1 ∧
    certainGlobal ex3 (1/2) 1 ∧ ¬ certainGlobalSpec ex3 (1/2) 1 := by
  refine ⟨ex3_absdif1, ex3_spec1, ?_, ?_, ?_⟩
  · rw [ex3_absdif1, ex3_spec1]
    norm_num
  · unfold certainGlobal
    rw [ex3_absdif1, ex3_absdifList, quantile_01_half]
    norm_num
  · unfold certainGlobalSpec
    rw [ex3_spec1, ex3_specList, quantile_10_half]
    norm_num

/-- C3 (amended): the per-cell confidence score equals the absolute difference
of the signature-score columns `Normal`/`Tumor` of the result table; it is
fixed across all iterations and independent of the classifier-probability
columns: two inputs agreeing on the signature columns produce identical
certainty masks at every iteration, whatever their classifier probabilities. -/
theorem C3_amended (inp inp2 : LPInput n) (t : ℚ) (n_iter : ℕ)
    (hN : inp.normal = inp2.normal) (hT : inp.tumor = inp2.tumor) :
    (∀ c, absdif inp c = absdif inp2 c) ∧
    (∀ i c, certainAt inp t n_iter i c ↔ certainAt inp2 t n_iter i c) ∧
    (∀ c, certainGlobal inp t c ↔ certainGlobal inp2 t c) := by
  have habs : absdif inp = absdif inp2 := by
    funext c
    unfold absdif
    rw [hN, hT]
  have hlist : absdifList inp = absdifList inp2 := by
    unfold absdifList
    rw [habs]
  refine ⟨fun c => by rw [habs], fun i c => ?_, fun c => ?_⟩
  · unfold certainAt
    rw [habs, hlist]
  · unfold certainGlobal
    rw [habs, hlist]

/-- C3 (witness): the amended statement applied to two concrete inputs that
share signature scores but have different classifier probabilities. -/
theorem C3_witness :
    (∀ c, absdif ex3 c = absdif ex3b c) ∧
    (∀ i c, certainAt ex3 (1/2) 2 i c ↔ certainAt ex3b (1/2) 2 i c) ∧
    (∀ c, certainGlobal ex3 (1/2) c ↔ certainGlobal ex3b (1/2) c) :=
  C3_amended ex3 ex3b (1/2) 2 rfl rfl

/-- C4: after the renormalize step of any iteration, every row whose
pre-division row sum is non-zero sums exactly to 1. -/
theorem C4_row_stochastic (inp : LPInput n) (t : ℚ) (n_iter i : ℕ) (c : Fin n)
    (h : propRowSum inp t n_iter i c ≠ 0) :
    (probaSeq inp t n_iter (i + 1) c).1 + (probaSeq inp t n_iter (i + 1) c).2 = 1 := by
  have hP : probaSeq inp t n_iter (i + 1) c
      = ((propagateRow inp (maskedAt inp t n_iter i) c).1 / propRowSum inp t n_iter i c,
         (propagateRow inp (maskedAt inp t n_iter i) c).2 / propRowSum inp t n_iter i c) := rfl
  rw [hP]
  show (propagateRow inp (maskedAt inp t n_iter i) c).1 / propRowSum inp t n_iter i c
      + (propagateRow inp (maskedAt inp t n_iter i) c).2 / propRowSum inp t n_iter i c = 1
  rw [div_add_div_same]
  exact div_self h

/-- C4 (witness): a concrete row with non-zero row sum renormalizes to sum 1. -/
theorem C4_witness : propRowSum ex2 (1/2) 2 0 0 ≠ 0 ∧
    (probaSeq ex2 (1/2) 2 (0 + 1) 0).1 + (probaSeq ex2 (1/2) 2 (0 + 1) 0).2 = 1 := by
  have h : propRowSum ex2 (1/2) 2 0 0 ≠ 0 := by
    rw [ex2_propRowSum]
    norm_num
  exact ⟨h, C4_row_stochastic ex2 (1/2) 2 0 0 h⟩

/-- C5 (counterexample): on a run whose propagate step produces a zero row sum,
the engine raises no error, applies no fallback (the row does not keep its
previous probabilities), and silently divides: the row becomes the undefined
value (NaN in the Python code; 0/0 = 0 in this rational embedding) and is
carried into the following iteration and the output. -/
theorem C5_counterexample :
    propRowSum ex5 (1/2) 2 0 0 = 0 ∧
    isOkE (label_propagation ex5 2 (1/2)) = true ∧
    probaSeq ex5 (1/2) 2 1 0 = (0, 0) ∧
    probaSeq ex5 (1/2) 2 1 0 ≠ probaSeq ex5 (1/2) 2 0 0 := by
  refine ⟨ex5_propRowSum, ?_, ex5_probaSeq1, ?_⟩
  · rw [ex5_run]
    rfl
  · rw [ex5_probaSeq1]
    have h0 : probaSeq ex5 (1/2) 2 0 0 = (1, 0) := by
      simp [probaSeq, initProba, ex5]
    rw [h0]
    intro hcontra
    have hfst := congrArg Prod.fst hcontra
    norm_num at hfst

/-- C5 (amended): no zero-row-sum detection exists: the renormalize division
is applied unconditionally, and a row with zero pre-division sum silently
becomes the undefined row (modelled as division by zero, giving (0, 0)) that
feeds the next iteration and the output. -/
theorem C5_amended (inp : LPInput n) (t : ℚ) (n_iter i : ℕ) (c : Fin n)
    (h : propRowSum inp t n_iter i c = 0) :
    probaSeq inp t n_iter (i + 1) c = (0, 0) := by
  have hP : probaSeq inp t n_iter (i + 1) c
      = ((propagateRow inp (maskedAt inp t n_iter i) c).1 / propRowSum inp t n_iter i c,
         (propagateRow inp (maskedAt inp t n_iter i) c).2 / propRowSum inp t n_iter i c) := rfl
  rw [hP, h, div_zero, div_zero]

/-- C5 (witness): the amended statement applied to the concrete isolated cell. -/
theorem C5_witness : propRowSum ex5 (1/2) 2 0 0 = 0 ∧
    probaSeq ex5 (1/2) 2 (0 + 1) 0 = (0, 0) :=
  ⟨ex5_propRowSum, C5_amended ex5 (1/2) 2 0 0 ex5_propRowSum⟩

/-- C6: for a certainty threshold in [0, 1], the certain set of iteration i is
contained in the certain set of iteration i+1, and the pre-loop global certain
set (threshold) is contained in every iteration's certain set. -/
theorem C6_mask_monotone (inp : LPInput n) (t : ℚ) (n_iter i : ℕ)
    (h0 : 0 ≤ t) (h1 : t ≤ 1) (hi : i + 1 < n_iter) :
    (∀ c, certainAt inp t n_iter i c → certainAt inp t n_iter (i + 1) c) ∧
    (∀ j, j < n_iter → ∀ c, certainGlobal inp t c → certainAt inp t n_iter j c) := by
  have hn : 2 ≤ n_iter := by omega
  constructor
  · intro c hc
    have hmono := quantile_mono (absdifList inp) (absdifList_ne_nil inp c)
      (thresholdAt_nonneg h0 hn (by omega))
      (thresholdAt_anti h0 hn (Nat.le_succ i))
      (le_trans (thresholdAt_le i h0 hn) h1)
    exact lt_of_le_of_lt hmono hc
  · intro j hj c hc
    have hmono := quantile_mono (absdifList inp) (absdifList_ne_nil inp c)
      (thresholdAt_nonneg h0 hn hj)
      (thresholdAt_le j h0 hn)
      h1
    exact lt_of_le_of_lt hmono hc

/-- C6 (witness): on the concrete two-cell run with threshold 1/2 and budget 3,
cell 0 certain at iteration 0 is certain at iteration 1. -/
theorem C6_witness : certainAt ex2 (1/2) 3 1 0 :=
  (C6_mask_monotone ex2 (1/2) 3 0 (by norm_num) (by norm_num) (by norm_num)).1 0 ex2_c300

/-- C7: the per-iteration quantile threshold equals the claimed linear decay
formula, reaches exactly 0 at the last iteration, and the iteration-i mask is
the strict comparison of the confidence with the quantile at that threshold. -/
theorem C7_threshold_schedule (inp : LPInput n) (t : ℚ) (n_iter i : ℕ)
    (h0 : 0 ≤ t) (h1 : t ≤ 1) (hn : 2 ≤ n_iter) (hi : i < n_iter) :
    thresholdAt t n_iter i = t * (1 - (i : ℚ) / ((n_iter : ℚ) - 1)) ∧
    thresholdAt t n_iter (n_iter - 1) = 0 ∧
    (∀ c, certainAt inp t n_iter i c ↔
      absdif inp c > quantile (absdifList inp) (t * (1 - (i : ℚ) / ((n_iter : ℚ) - 1)))) := by
  have heq : thresholdAt t n_iter i = t * (1 - (i : ℚ) / ((n_iter : ℚ) - 1)) := by
    unfold thresholdAt np_linspace
    ring
  refine ⟨heq, ?_, fun c => ?_⟩
  · have hD : ((n_iter : ℚ) - 1) ≠ 0 := by
      have h2 : (2:ℚ) ≤ (n_iter : ℚ) := by exact_mod_cast hn
      intro hzero
      rw [sub_eq_zero] at hzero
      rw [hzero] at h2
      norm_num at h2
    unfold thresholdAt np_linspace
    have hcast : ((n_iter - 1 : ℕ) : ℚ) = (n_iter : ℚ) - 1 := by
      rw [Nat.cast_sub (by omega), Nat.cast_one]
    rw [hcast]
    field_simp
  · unfold certainAt
    rw [heq]

/-- C7 (witness): the schedule evaluated at the last iteration of a budget-6
run is exactly 0. -/
theorem C7_witness : thresholdAt (1/2) 6 (6 - 1) = 0 :=
  (C7_threshold_schedule exA (1/2) 6 5 (by norm_num) (by norm_num) (by norm_num)
    (by norm_num)).2.1

/-- C8: for any run with at least two iterations, the loop returns a result;
if it ran to exhaustion it executed exactly n_iter iterations, emitted exactly
one warning carrying the drift of the last iteration, and still returned the
last iteration's matrix; if it stopped early it emitted no warning. -/
theorem C8_nonconvergence_warning (inp : LPInput n) (n_iter : ℕ) (t : ℚ) (hn : 2 ≤ n_iter) :
    ∃ out, label_propagation inp n_iter t = .ok out ∧
      (out.earlyStopped = false → out.iters = n_iter ∧
        out.warned = [driftAt inp t n_iter (n_iter - 1)] ∧
        out.proba = probaSeq inp t n_iter n_iter) ∧
      (out.earlyStopped = true → out.warned = []) := by
  by_cases hstop : ∃ j, 5 ≤ j ∧ j < n_iter ∧ driftAt inp t n_iter j < 1 / 1000
  · refine ⟨_, label_propagation_stop_char inp n_iter t hn hstop, fun hfalse => ?_,
      fun _ => rfl⟩
    exact absurd hfalse (by simp)
  · have hdr : ∀ j, 5 ≤ j → j < n_iter → ¬ driftAt inp t n_iter j < 1 / 1000 :=
      fun j a b c => hstop ⟨j, a, b, c⟩
    exact ⟨_, label_propagation_exhaust_char inp n_iter t hn hdr,
      fun _ => ⟨rfl, rfl, rfl⟩, fun htrue => absurd htrue (by simp)⟩

/-- C8 (witness): the statement applied to a concrete two-iteration run. -/
theorem C8_witness :
    ∃ out, label_propagation exA 2 (1/2) = .ok out ∧
      (out.earlyStopped = false → out.iters = 2 ∧
        out.warned = [driftAt exA (1/2) 2 (2 - 1)] ∧
        out.proba = probaSeq exA (1/2) 2 2) ∧
      (out.earlyStopped = true → out.warned = []) :=
  C8_nonconvergence_warning exA 2 (1/2) (by norm_num)

/-- C9 (counterexample): no configuration validation exists: with the invalid
budget n_iter = 0 the annotator does not reject the run; it completes
normally, returning the classifier probabilities untouched, zero iterations
and no warning. -/
theorem C9_counterexample :
    isOkE (cell_annotator sigN9 sigT9 conn9 pp9 0 (1/2)) = true ∧
    (cell_annotator sigN9 sigT9 conn9 pp9 0 (1/2)).map LPOut.iters = .ok 0 ∧
    (cell_annotator sigN9 sigT9 conn9 pp9 0 (1/2)).map LPOut.warned = .ok [] :=
  ⟨rfl, rfl, rfl⟩

/-- C9 (amended): cell_annotator performs no validation whatsoever: it is the
straight composition of the classifier scoring with label_propagation for
every parameter value, and the invalid budget n_iter = 0 yields a completed
run returning the initial classifier probabilities. -/
theorem C9_amended (sigN sigT : Fin n → ℚ) (conn : Fin n → Fin n → ℚ)
    (pp : Fin n → ℚ × ℚ) (t : ℚ) :
    (∀ n_iter, cell_annotator sigN sigT conn pp n_iter t
      = label_propagation
          ⟨sigN, sigT, fun c => (pp c).1, fun c => (pp c).2, conn⟩ n_iter t) ∧
    cell_annotator sigN sigT conn pp 0 t
      = .ok ⟨initProba ⟨sigN, sigT, fun c => (pp c).1, fun c => (pp c).2, conn⟩,
          [], 0, false⟩ :=
  ⟨fun _ => rfl, rfl⟩

/-- C10: with n_iter = 1 the warning branch reads the loop variable holding
the previous assignment before it was ever assigned, raising NameError; with
any n_iter at least 2 the loop always returns a result. -/
theorem C10_name_error (inp : LPInput n) (t : ℚ) :
    label_propagation inp 1 t = .error .nameError ∧
    ∀ n_iter, 2 ≤ n_iter → isOkE (label_propagation inp n_iter t) = true := by
  constructor
  · exact lpLoop_none_warn inp t 1 0 0 (initProba inp) [] (by omega) (by omega)
  · intro n_iter hn
    by_cases hstop : ∃ j, 5 ≤ j ∧ j < n_iter ∧ driftAt inp t n_iter j < 1 / 1000
    · rw [label_propagation_stop_char inp n_iter t hn hstop]
      rfl
    · have hdr : ∀ j, 5 ≤ j → j < n_iter → ¬ driftAt inp t n_iter j < 1 / 1000 :=
        fun j a b c => hstop ⟨j, a, b, c⟩
      rw [label_propagation_exhaust_char inp n_iter t hn hdr]
      rfl

/-- C10 (witness): the statement applied to the concrete one-cell input with
budgets 1 and 7. -/
theorem C10_witness :
    label_propagation exA 1 (1/2) = .error .nameError ∧
    isOkE (label_propagation exA 7 (1/2)) = true :=
  ⟨(C10_name_error exA (1/2)).1, (C10_name_error exA (1/2)).2 7 (by norm_num)⟩

end Ikarus
